import Mathlib

/-!
Verification of the terreno.nvim visualizer core: a shallow embedding of the
client graph-merge engine (handleExpandCalls, handleExpandFile), the geometry
estimators (estimateNodeWidth, estimateNodeHeight, estimateNodeSize) and the
server request-correlation layer (createPendingRequest, resolvePendingRequest),
together with theorems about the merge invariants, placement and error paths.

Machine integers are modelled as Int (the source manipulates small exact
integers only), JavaScript `undefined`-able fields as Option, and a thrown
TypeError as an Option-valued result (none).  JavaScript Maps are modelled as
insertion-ordered association lists.
-/

namespace Terreno

/-- Screen position of a node, as set by layout or by the merge engine. -/
structure Pos where
  x : Int
  y : Int
deriving DecidableEq, Repr

/-- Symbol entry embedded in a file node; the estimators read only the name
and the kind tag, either of which may be absent in a raw fragment. -/
structure Symbol where
  name : Option String
  kind : Option String
deriving DecidableEq, Repr

/-- Payload of a node (`node.data` in the source); every field is optional,
mirroring the duck-typed JavaScript object. -/
structure NodeData where
  filename : Option String
  label : Option String
  symbols : Option (List Symbol)
  filepath : Option String
  isExpanded : Option Bool
deriving DecidableEq, Repr

/-- NodeData with no fields set, the value of a spread of `undefined`. -/
def emptyNodeData : NodeData :=
  { filename := none, label := none, symbols := none, filepath := none, isExpanded := none }

/-- Graph node: id and type may be absent in a raw fragment (a fragment node's
position is always overwritten by the merge engine before it is stored, so the
field is kept total). -/
structure Node where
  id : Option String
  type : Option String
  position : Pos
  data : Option NodeData
deriving DecidableEq, Repr

/-- Graph edge; endpoints are ids and may be absent in a raw fragment. -/
structure Edge where
  id : Option String
  source : Option String
  target : Option String
deriving DecidableEq, Repr

/-- The mutable aggregate of all nodes and edges of a session. -/
structure Graph where
  nodes : List Node
  edges : List Edge
deriving DecidableEq, Repr

/-- Template-literal stringification of a possibly-undefined id. -/
def jsToStr (o : Option String) : String :=
  o.getD ("undefined")

/-- JavaScript `a || d` on strings: the empty string is falsy. -/
def jsOrStr (o : Option String) (d : String) : String :=
  match o with
  | some s => if s = "" then d else s
  | none => d

/-- JavaScript `node.data?.label?.length || 10`: absent label or length 0
falls back to 10. -/
def jsLabelLength (node : Node) : Int :=
  match node.data.bind (fun d => d.label) with
  | some l => if l.length = 0 then 10 else (l.length : Int)
  | none => 10

/-- Estimate node height based on symbol count (part of the expand-calls hook):
header 50, 28 per symbol, 24 per distinct kind, capped at 300, plus 16. -/
def estimateNodeHeight (symsOpt : Option (List Symbol)) : Int :=
  let symbols := symsOpt.getD []
  let groupCount := ((symbols.map (fun s => s.kind)).dedup).length
  let symbolsHeight := (symbols.length : Int) * 28 + (groupCount : Int) * 24
  50 + min symbolsHeight 300 + 16

/-- Estimate node width based on content (part of the expand-calls hook):
max(280, 8 times the longest of filename and symbol names plus 120) plus a
300 wide code-preview buffer. -/
def estimateNodeWidth (node : Node) : Int :=
  let filename := (node.data.bind (fun d => d.filename)).getD ""
  let symbols := (node.data.bind (fun d => d.symbols)).getD []
  let longestSymbol := symbols.foldl (fun mx s => max mx ((s.name.getD "").length : Int)) 0
  let maxTextLength := max (filename.length : Int) longestSymbol
  let baseWidth := max 280 (maxTextLength * 8 + 120)
  baseWidth + 300

/-- Estimate node dimensions (layout utility module): symbol-kind nodes get
max(180, 8 times label length + 80) by 70; file-kind nodes follow the same
width and height formulas as the expand-calls estimators. -/
def estimateNodeSize (node : Node) : Int × Int :=
  if node.type ≠ some ("file") then
    (max 180 (jsLabelLength node * 8 + 80), 70)
  else
    let symbols := (node.data.bind (fun d => d.symbols)).getD []
    let filename := (node.data.bind (fun d => d.filename)).getD ""
    let longestSymbol := symbols.foldl (fun mx s => max mx ((s.name.getD "").length : Int)) 0
    let maxTextLength := max (filename.length : Int) longestSymbol
    let baseWidth := max 280 (maxTextLength * 8 + 120)
    let width := baseWidth + 300
    let groupCount := ((symbols.map (fun s => s.kind)).dedup).length
    let symbolsHeight := (symbols.length : Int) * 28 + (groupCount : Int) * 24
    let height := 50 + min symbolsHeight 300 + 16
    (width, height)

/-- Ids of the nodes currently in the graph (the `existingIds` set). -/
def existingIds (g : Graph) : List (Option String) :=
  g.nodes.map (fun n => n.id)

/-- Fragment nodes that survive deduplication against the current graph:
those whose id is not already an existing id. -/
def uniqueNewNodes (g : Graph) (newNodes : List Node) : List Node :=
  newNodes.filter (fun n => decide (n.id ∉ existingIds g))

/-- Lookup of the expansion source node by id. -/
def sourceNode (g : Graph) (sourceId : Option String) : Option Node :=
  g.nodes.find? (fun n => decide (n.id = sourceId))

/-- The source node x, 0 when the node or its position is absent. -/
def sourceX (g : Graph) (sourceId : Option String) : Int :=
  ((sourceNode g sourceId).map (fun n => n.position.x)).getD 0

/-- The source node y, 0 when the node or its position is absent. -/
def sourceY (g : Graph) (sourceId : Option String) : Int :=
  ((sourceNode g sourceId).map (fun n => n.position.y)).getD 0

/-- Dedup key of an edge, the template literal of source and target. -/
def edgeKey (e : Edge) : String :=
  jsToStr e.source ++ "-" ++ jsToStr e.target

/-- Edge merge of the expand-calls hook: append the new edges whose key is not
already the key of a current edge (the new edges are not deduplicated among
themselves). -/
def mergeCallsEdges (currentEdges newEdges : List Edge) : List Edge :=
  currentEdges ++ newEdges.filter (fun e => decide (edgeKey e ∉ currentEdges.map edgeKey))

/-- Occupied vertical intervals near the target column: every current node
whose x is within one source-width of the target column contributes the
interval from its y to its y plus its estimated height. -/
def occupiedRanges (g : Graph) (targetX sourceWidth : Int) : List (Int × Int) :=
  (g.nodes.filter (fun n => decide (|n.position.x - targetX| < sourceWidth))).map
    (fun n => (n.position.y, n.position.y + estimateNodeHeight (n.data.bind (fun d => d.symbols))))

/-- Collision test of the greedy scan: the candidate block [top, bottom]
collides when it is neither strictly below nor strictly above some occupied
interval. -/
def hasCollision (ranges : List (Int × Int)) (top bottom : Int) : Bool :=
  ranges.any (fun r => decide (¬ (bottom < r.1 ∨ top > r.2)))

/-- One attempt of the bounded greedy scan: return the current y when it is
free, otherwise step down by one symbol-node height plus gap (80 + 20) and
recurse on the remaining fuel; out of fuel, return the current (untested) y. -/
def findFreeYAux (ranges : List (Int × Int)) (neededHeight : Int) : Int → Nat → Int
  | y, 0 => y
  | y, fuel + 1 =>
    if hasCollision ranges y (y + neededHeight) then
      findFreeYAux ranges neededHeight (y + (80 + 20)) fuel
    else y

/-- The bounded greedy first-fit scan of the expand-calls hook: 50 attempts,
needed height count times (symbol-node height 80 plus vertical gap 20). -/
def findFreeY (ranges : List (Int × Int)) (startY : Int) (count : Nat) : Int :=
  findFreeYAux ranges ((count : Int) * (80 + 20)) startY 50

/-- Position the deduplicated fragment nodes of an expand-calls merge: node at
index i goes to (targetX, startY + i * (80 + 20)), its type defaults to
symbol, and its data is spread (an absent data object becomes an empty one). -/
def positionCallNodes (targetX startY : Int) : Nat → List Node → List Node
  | _, [] => []
  | i, n :: ns =>
    { n with
      type := some (jsOrStr n.type ("symbol")),
      position := { x := targetX, y := startY + (i : Int) * (80 + 20) },
      data := some (n.data.getD emptyNodeData) }
    :: positionCallNodes targetX startY (i + 1) ns

/-- The expand-calls merge (handleExpandCalls): dedup the fragment nodes by id
against the graph; when none survive, the node list is unchanged; otherwise
look up the source node, compute the target column one source-width plus 60
to the right, scan for a free y, and append the positioned nodes.  The edges
are merged by key dedup in either case.  When the source node is absent and
some fragment nodes survive, the source width is estimated on an undefined
node and the update throws: modelled as none. -/
def handleExpandCalls (g : Graph) (sourceId : Option String) (newNodes : List Node)
    (newEdges : List Edge) : Option Graph :=
  if (uniqueNewNodes g newNodes).length = 0 then
    some { nodes := g.nodes, edges := mergeCallsEdges g.edges newEdges }
  else
    match sourceNode g sourceId with
    | none => none
    | some src =>
      some
        { nodes :=
            g.nodes ++
              positionCallNodes (sourceX g sourceId + estimateNodeWidth src + 60)
                (findFreeY
                  (occupiedRanges g (sourceX g sourceId + estimateNodeWidth src + 60)
                    (estimateNodeWidth src))
                  (sourceY g sourceId) (uniqueNewNodes g newNodes).length)
                0 (uniqueNewNodes g newNodes),
          edges := mergeCallsEdges g.edges newEdges }

/-- Edge update of the expand-file hook: an edge from the source to every
result node other than the source itself, keeping only those whose
(source, target) pair is not already that of a current edge. -/
def fileExpandEdges (currentEdges : List Edge) (sourceId : Option String)
    (resultNodes : List Node) : List Edge :=
  let newEdges :=
    (resultNodes.filter (fun n => decide (¬ n.id = sourceId))).map (fun n =>
      { id := some ("e_" ++ jsToStr sourceId ++ "_" ++ jsToStr n.id),
        source := sourceId, target := n.id : Edge })
  currentEdges ++
    newEdges.filter (fun e =>
      decide (¬ ∃ ce ∈ currentEdges, ce.source = e.source ∧ ce.target = e.target))

/-- Position the deduplicated result nodes of an expand-file merge: all in the
column at x, stacked from the running y, each advancing the running y by its
own estimated height plus the vertical gap 30; type is set to file. -/
def positionFileNodes (x : Int) : Int → List Node → List Node
  | _, [] => []
  | currentY, n :: ns =>
    { n with
      type := some ("file"),
      position := { x := x, y := currentY },
      data := some (n.data.getD emptyNodeData) }
    :: positionFileNodes x (currentY + estimateNodeHeight (n.data.bind (fun d => d.symbols)) + 30) ns

/-- The expand-file merge (handleExpandFile): mark the source node expanded,
dedup the result nodes by id against the graph, position the survivors one
source-width plus 60 to the right of the source stacked by estimated height,
and append; edges from the source to every result node are pair-deduplicated
and appended in either case.  When the source node is absent and some result
nodes survive, the width estimate dereferences undefined: modelled as none. -/
def handleExpandFile (g : Graph) (sourceId : Option String)
    (resultNodes : List Node) : Option Graph :=
  let updatedNodes :=
    g.nodes.map (fun n =>
      if n.id = sourceId then
        { n with data := some { n.data.getD emptyNodeData with isExpanded := some true } }
      else n)
  let newNodes := resultNodes.filter (fun n => decide (n.id ∉ existingIds g))
  if newNodes.length = 0 then
    some { nodes := updatedNodes, edges := fileExpandEdges g.edges sourceId resultNodes }
  else
    match sourceNode g sourceId with
    | none => none
    | some src =>
      some
        { nodes :=
            updatedNodes ++
              positionFileNodes (sourceX g sourceId + estimateNodeWidth src + 60)
                (sourceY g sourceId) newNodes,
          edges := fileExpandEdges g.edges sourceId resultNodes }

/-- Invariant of the spec: every stored edge's source and target are ids of
nodes present in the same graph. -/
def danglingFree (g : Graph) : Bool :=
  g.edges.all (fun e =>
    decide (e.source ∈ existingIds g) && decide (e.target ∈ existingIds g))

/-- Invariant of the spec: node ids are pairwise distinct and no two edges
share the same (source, target) pair. -/
def dupFree (g : Graph) : Bool :=
  decide (g.nodes.map (fun n => n.id)).Nodup &&
    decide (g.edges.map (fun e => (e.source, e.target))).Nodup

/-- Result of a promise exposed by the correlation layer. -/
inductive PromiseOutcome (α : Type) where
  | resolved (value : α)
  | rejected (message : String)
deriving DecidableEq, Repr

/-- Lookup in an insertion-ordered association list (JavaScript Map.get). -/
def mapGet {β : Type} (m : List (String × β)) (k : String) : Option β :=
  match m with
  | [] => none
  | p :: t => if p.1 = k then some p.2 else mapGet t k

/-- Deletion from an association list (JavaScript Map.delete). -/
def mapDelete {β : Type} (m : List (String × β)) (k : String) : List (String × β) :=
  m.filter (fun p => decide (¬ p.1 = k))

/-- Insertion into an association list (JavaScript Map.set): replace in place
when the key exists, else append. -/
def mapSet {β : Type} (m : List (String × β)) (k : String) (v : β) : List (String × β) :=
  if (mapGet m k).isSome then
    m.map (fun p => if p.1 = k then (k, v) else p)
  else m ++ [(k, v)]

/-- State of the request-correlation layer: the pending map holds, per request
id, the data captured by the stored entry (its timeout duration); outcomes
records how each awaitable settled.  A timer event only occurs for an entry
still pending, because resolving clears the timeout. -/
structure CorrState (α : Type) where
  pending : List (String × Int)
  outcomes : List (String × PromiseOutcome α)
deriving DecidableEq, Repr

/-- Register a pending request under a fresh request id with its timeout. -/
def createPendingRequest {α : Type} (st : CorrState α) (requestId : String)
    (timeoutMs : Int) : CorrState α :=
  { st with pending := mapSet st.pending requestId timeoutMs }

/-- The timeout of a still-pending request fires: the entry is deleted and the
awaitable is rejected with a Timeout error naming the duration.  A cleared
timer (entry no longer pending) never fires. -/
def fireTimeout {α : Type} (st : CorrState α) (requestId : String) : CorrState α :=
  match mapGet st.pending requestId with
  | some tms =>
    { pending := mapDelete st.pending requestId,
      outcomes := st.outcomes ++
        [(requestId, PromiseOutcome.rejected ("Timeout after " ++ toString tms ++ "ms"))] }
  | none => st

/-- Resolve a pending request by id: when present, the wrapped resolve clears
the timeout, deletes the entry and resolves the awaitable; when absent, a
silent no-op. -/
def resolvePendingRequest {α : Type} (st : CorrState α) (requestId : String)
    (value : α) : CorrState α :=
  match mapGet st.pending requestId with
  | some _ =>
    { pending := mapDelete st.pending requestId,
      outcomes := st.outcomes ++ [(requestId, PromiseOutcome.resolved value)] }
  | none => st

/-- Response of the expand endpoint. -/
structure ExpandResponse where
  status : String
  nodes : List Node
  edges : List Edge
deriving DecidableEq, Repr

/-- Response of the references endpoint. -/
structure ReferencesResponse where
  status : String
  files : List String
deriving DecidableEq, Repr

/-- The expand endpoint: send the request to the provider, await the
correlated result; any failure (provider unreachable, or the pending request
rejected by timeout) is caught and answered with an ok-status empty
node and edge list. -/
def expandEndpoint (send : Except String Unit)
    (awaited : Except String (List Node × List Edge)) : ExpandResponse :=
  match send with
  | Except.error _ => { status := "ok", nodes := [], edges := [] }
  | Except.ok _ =>
    match awaited with
    | Except.error _ => { status := "ok", nodes := [], edges := [] }
    | Except.ok r => { status := "ok", nodes := r.1, edges := r.2 }

/-- The references endpoint: like the expand endpoint but answering a file
list, defaulting an absent list to empty, and catching any failure with an
ok-status empty file list. -/
def referencesEndpoint (send : Except String Unit)
    (awaited : Except String (Option (List String))) : ReferencesResponse :=
  match send with
  | Except.error _ => { status := "ok", files := [] }
  | Except.ok _ =>
    match awaited with
    | Except.error _ => { status := "ok", files := [] }
    | Except.ok fs => { status := "ok", files := fs.getD [] }

/-- Fixture: a placed file node with id a at the origin. -/
def fxA : Node :=
  { id := some ("a"), type := some ("file"), position := { x := 0, y := 0 },
    data := some { filename := some ("a.py"), label := none, symbols := some [],
                   filepath := none, isExpanded := none } }

/-- Fixture: a fragment node with id b. -/
def fxB : Node :=
  { id := some ("b"), type := none, position := { x := 0, y := 0 },
    data := some { filename := some ("b.py"), label := none, symbols := some [],
                   filepath := none, isExpanded := none } }

/-- Fixture: a fragment edge from a to b. -/
def fxE : Edge :=
  { id := some ("eab"), source := some ("a"), target := some ("b") }

/-- Fixture: the one-node graph holding only the source node a. -/
def fxG : Graph :=
  { nodes := [fxA], edges := [] }

/-- Fixture: node b as placed by the expand-calls merge of fxG with [fxB]. -/
def fxBPlaced : Node :=
  { id := some ("b"), type := some ("symbol"), position := { x := 640, y := 0 },
    data := some { filename := some ("b.py"), label := none, symbols := some [],
                   filepath := none, isExpanded := none } }

/-- Fixture: the graph resulting from merging fragment ([fxB], [fxE]) into fxG
at source a. -/
def fxG1 : Graph :=
  { nodes := [fxA, fxBPlaced], edges := [fxE] }

/-- Fixture: a malformed fragment node missing its id. -/
def fxNoId : Node :=
  { id := none, type := none, position := { x := 0, y := 0 }, data := none }

/-- Fixture: a fragment edge both of whose endpoints name no node. -/
def fxEdgeXY : Edge :=
  { id := some ("exy"), source := some ("x"), target := some ("y") }

/-- Fixture: a file node with filename models.py and no symbols. -/
def fxModels : Node :=
  { id := some ("m"), type := some ("file"), position := { x := 0, y := 0 },
    data := some { filename := some ("models.py"), label := none, symbols := some [],
                   filepath := none, isExpanded := none } }

/-- Fixture: file node fileA with two symbols, placed at the origin. -/
def fxFileA : Node :=
  { id := some ("fileA"), type := some ("file"), position := { x := 0, y := 0 },
    data := some { filename := some ("fileA.py"), label := none,
                   symbols := some [{ name := some ("alpha"), kind := some ("Function") },
                                    { name := some ("beta"), kind := some ("Method") }],
                   filepath := none, isExpanded := none } }

/-- Fixture: result node fileB with an empty symbol list. -/
def fxFileB : Node :=
  { id := some ("fileB"), type := none, position := { x := 0, y := 0 },
    data := some { filename := some ("b.py"), label := none, symbols := some [],
                   filepath := none, isExpanded := none } }

/-- Fixture: the graph holding only fileA. -/
def fxGFile : Graph :=
  { nodes := [fxFileA], edges := [] }

/-- Membership in the deduplicated fragment node list. -/
theorem mem_uniqueNewNodes {g : Graph} {N : List Node} {n : Node} :
    n ∈ uniqueNewNodes g N ↔ n ∈ N ∧ n.id ∉ existingIds g := by
  simp [uniqueNewNodes, List.mem_filter]

/-- Positioning preserves the ids of the fragment nodes. -/
theorem positionCallNodes_map_id (tx sy : Int) :
    ∀ (i : Nat) (l : List Node),
      (positionCallNodes tx sy i l).map (fun n => n.id) = l.map (fun n => n.id)
  | _, [] => rfl
  | i, n :: ns => by
    simp only [positionCallNodes, List.map_cons]
    exact congrArg _ (positionCallNodes_map_id tx sy (i + 1) ns)

/-- Re-merging the same edge fragment is the identity: every new edge key is
already present after the first merge. -/
theorem mergeCallsEdges_idem (ce ne : List Edge) :
    mergeCallsEdges (mergeCallsEdges ce ne) ne = mergeCallsEdges ce ne := by
  unfold mergeCallsEdges
  have hnil :
      ne.filter (fun e =>
        decide (edgeKey e ∉
          (ce ++ ne.filter (fun e => decide (edgeKey e ∉ ce.map edgeKey))).map edgeKey)) = [] := by
    rw [List.filter_eq_nil_iff]
    intro e he
    simp only [decide_eq_true_eq, not_not, List.map_append, List.mem_append]
    by_cases hk : edgeKey e ∈ ce.map edgeKey
    · exact Or.inl hk
    · refine Or.inr (List.mem_map_of_mem _ ?_)
      exact List.mem_filter.mpr ⟨he, by simpa using hk⟩
  rw [hnil, List.append_nil]

/-- Shape of a successful expand-calls merge: the resulting node ids are the
old ids followed by the ids of the deduplicated fragment nodes, and the
resulting edges are the key-deduplicated merge of the fragment edges. -/
theorem handleExpandCalls_spec {g : Graph} {s : Option String} {N : List Node}
    {E : List Edge} {g' : Graph} (h : handleExpandCalls g s N E = some g') :
    g'.nodes.map (fun n => n.id) =
      g.nodes.map (fun n => n.id) ++ (uniqueNewNodes g N).map (fun n => n.id) ∧
    g'.edges = mergeCallsEdges g.edges E := by
  unfold handleExpandCalls at h
  split at h
  case isTrue hlen =>
    injection h with h2
    subst h2
    have hnil : uniqueNewNodes g N = [] := List.length_eq_zero.mp hlen
    exact ⟨by simp [hnil], rfl⟩
  case isFalse hlen =>
    cases hsrc : sourceNode g s with
    | none => rw [hsrc] at h; cases h
    | some src =>
      rw [hsrc] at h
      injection h with h2
      subst h2
      refine ⟨?_, rfl⟩
      simp only [List.map_append]
      exact congrArg _ (positionCallNodes_map_id _ _ 0 _)

/-- Association list lookup after a set finds the new value. -/
theorem mapGet_mapSet_self {β : Type} (m : List (String × β)) (k : String) (v : β) :
    mapGet (mapSet m k v) k = some v := by
  unfold mapSet
  split
  case isTrue hsome =>
    induction m with
    | nil => simp [mapGet] at hsome
    | cons p t ih =>
      by_cases hp : p.1 = k
      · simp [mapGet, hp]
      · simp only [List.map_cons, if_neg hp]
        simp only [mapGet, if_neg hp]
        apply ih
        simp only [mapGet, if_neg hp] at hsome
        exact hsome
  case isFalse hnone =>
    induction m with
    | nil => simp [mapGet]
    | cons p t ih =>
      simp only [mapGet] at hnone ⊢
      by_cases hp : p.1 = k
      · rw [if_pos hp] at hnone; simp at hnone
      · rw [if_neg hp] at hnone
        simp only [List.cons_append, mapGet, if_neg hp]
        simp only [mapGet] at ih
        exact ih hnone

/-- Association list lookup after a delete finds nothing. -/
theorem mapGet_mapDelete_self {β : Type} (m : List (String × β)) (k : String) :
    mapGet (mapDelete m k) k = none := by
  induction m with
  | nil => rfl
  | cons p t ih =>
    unfold mapDelete at ih ⊢
    by_cases hp : p.1 = k
    · rw [List.filter_cons, if_neg (by simp [hp])]
      exact ih
    · rw [List.filter_cons, if_pos (by simpa using hp)]
      simp only [mapGet, if_neg hp]
      exact ih

/-- When some attempt within the fuel bound is collision-free, the scan stops
at a collision-free y. -/
theorem findFreeYAux_success (ranges : List (Int × Int)) (nh : Int) :
    ∀ (fuel : Nat) (y : Int),
      (∃ k : Nat, k < fuel ∧
        hasCollision ranges (y + (k : Int) * (80 + 20))
          (y + (k : Int) * (80 + 20) + nh) = false) →
      hasCollision ranges (findFreeYAux ranges nh y fuel)
        (findFreeYAux ranges nh y fuel + nh) = false := by
  intro fuel
  induction fuel with
  | zero =>
    rintro y ⟨k, hk, _⟩
    exact absurd hk (Nat.not_lt_zero k)
  | succ fuel ih =>
    rintro y ⟨k, hk, hkfree⟩
    unfold findFreeYAux
    by_cases hc : hasCollision ranges y (y + nh) = true
    · rw [if_pos hc]
      apply ih
      match k with
      | 0 => simp only [Nat.cast_zero, zero_mul, add_zero] at hkfree; rw [hkfree] at hc; cases hc
      | j + 1 =>
        refine ⟨j, by omega, ?_⟩
        have harith : y + ((j + 1 : Nat) : Int) * (80 + 20) = y + (80 + 20) + (j : Int) * (80 + 20) := by
          push_cast
          ring
        rw [harith] at hkfree
        exact hkfree
    · rw [if_neg hc]
      rw [Bool.not_eq_true] at hc
      exact hc

/-- When every attempt within the fuel bound collides, the scan returns the
start y advanced by fuel whole steps, one step beyond the last attempt. -/
theorem findFreeYAux_exhaust (ranges : List (Int × Int)) (nh : Int) :
    ∀ (fuel : Nat) (y : Int),
      (∀ k : Nat, k < fuel →
        hasCollision ranges (y + (k : Int) * (80 + 20))
          (y + (k : Int) * (80 + 20) + nh) = true) →
      findFreeYAux ranges nh y fuel = y + (fuel : Int) * (80 + 20) := by
  intro fuel
  induction fuel with
  | zero => intro y _; simp [findFreeYAux]
  | succ fuel ih =>
    intro y hall
    have h0 : hasCollision ranges y (y + nh) = true := by
      have := hall 0 (Nat.succ_pos fuel)
      simpa using this
    unfold findFreeYAux
    rw [if_pos h0]
    have hrec := ih (y + (80 + 20)) (by
      intro k hk
      have := hall (k + 1) (by omega)
      have harith : y + ((k + 1 : Nat) : Int) * (80 + 20) = y + (80 + 20) + (k : Int) * (80 + 20) := by
        push_cast
        ring
      rw [harith] at this
      exact this)
    rw [hrec]
    push_cast
    ring

/-- C1: merging the same expansion fragment twice is idempotent: whenever the
expand-calls merge of (s, N, E) into G yields G1, merging (s, N, E) into G1
again yields G1 unchanged — the second application adds no nodes and no edges
and changes no positions. -/
theorem C1_merge_idempotent (g : Graph) (s : Option String) (N : List Node)
    (E : List Edge) (g' : Graph) (h : handleExpandCalls g s N E = some g') :
    handleExpandCalls g' s N E = some g' := by
  obtain ⟨hids, hedges⟩ := handleExpandCalls_spec h
  have huniq : uniqueNewNodes g' N = [] := by
    rw [uniqueNewNodes, List.filter_eq_nil_iff]
    intro n hn
    simp only [decide_eq_true_eq, not_not]
    rw [existingIds, hids]
    by_cases hmem : n.id ∈ existingIds g
    · exact List.mem_append_left _ hmem
    · exact List.mem_append_right _ (List.mem_map_of_mem _ (mem_uniqueNewNodes.mpr ⟨hn, hmem⟩))
  unfold handleExpandCalls
  rw [huniq]
  simp only [List.length_nil, if_pos]
  rw [hedges, mergeCallsEdges_idem, ← hedges]

/-- C1 witness: a concrete merge of ([fxB], [fxE]) into fxG at source a, and
its re-application being a no-op. -/
theorem C1_witness :
    handleExpandCalls fxG (some ("a")) [fxB] [fxE] = some fxG1 ∧
    handleExpandCalls fxG1 (some ("a")) [fxB] [fxE] = some fxG1 := by
  have h : handleExpandCalls fxG (some ("a")) [fxB] [fxE] = some fxG1 := by decide
  exact ⟨h, C1_merge_idempotent fxG (some ("a")) [fxB] [fxE] fxG1 h⟩

/-- C2 counterexample: starting from the dangling-free graph fxG, one
expand-calls merge stores the edge (x, y) although neither endpoint names a
node, so the resulting graph has a dangling edge. -/
theorem C2_counterexample :
    danglingFree fxG = true ∧
    handleExpandCalls fxG (some ("a")) [] [fxEdgeXY] =
      some { nodes := [fxA], edges := [fxEdgeXY] } ∧
    danglingFree { nodes := [fxA], edges := [fxEdgeXY] } = false := by
  exact ⟨by decide, by decide, by decide⟩

/-- C2 amended: the expand-calls merge never checks edge endpoints, so the
no-dangling invariant is preserved only under the hypothesis that every
fragment edge's source and target are among the graph's node ids or the
fragment's node ids. -/
theorem C2_no_dangling_amended (g : Graph) (s : Option String) (N : List Node)
    (E : List Edge) (g' : Graph)
    (hE : ∀ e ∈ E,
      e.source ∈ existingIds g ++ N.map (fun n => n.id) ∧
      e.target ∈ existingIds g ++ N.map (fun n => n.id))
    (hg : danglingFree g = true)
    (h : handleExpandCalls g s N E = some g') :
    danglingFree g' = true := by
  obtain ⟨hids, hedges⟩ := handleExpandCalls_spec h
  have hsub : ∀ a : Option String,
      a ∈ existingIds g ++ N.map (fun n => n.id) → a ∈ existingIds g' := by
    intro a ha
    rw [existingIds, hids]
    rcases List.mem_append.mp ha with h1 | h1
    · exact List.mem_append_left _ h1
    · obtain ⟨n, hn, rfl⟩ := List.mem_map.mp h1
      by_cases hmem : n.id ∈ existingIds g
      · exact List.mem_append_left _ hmem
      · exact List.mem_append_right _
          (List.mem_map_of_mem _ (mem_uniqueNewNodes.mpr ⟨hn, hmem⟩))
  simp only [danglingFree, List.all_eq_true, Bool.and_eq_true, decide_eq_true_eq] at hg ⊢
  intro e he
  rw [hedges] at he
  rcases List.mem_append.mp he with h1 | h1
  · obtain ⟨hs, ht⟩ := hg e h1
    exact ⟨hsub _ (List.mem_append_left _ hs), hsub _ (List.mem_append_left _ ht)⟩
  · obtain ⟨hs, ht⟩ := hE e (List.mem_of_mem_filter h1)
    exact ⟨hsub _ hs, hsub _ ht⟩

/-- C2 witness: the concrete merge of C1 preserves the no-dangling invariant,
its fragment edge's endpoints being the source node's id and the new node's
id. -/
theorem C2_witness :
    (∀ e ∈ [fxE],
      e.source ∈ existingIds fxG ++ [fxB].map (fun n => n.id) ∧
      e.target ∈ existingIds fxG ++ [fxB].map (fun n => n.id)) ∧
    danglingFree fxG = true ∧
    handleExpandCalls fxG (some ("a")) [fxB] [fxE] = some fxG1 ∧
    danglingFree fxG1 = true := by
  exact ⟨by decide, by decide, by decide,
    C2_no_dangling_amended fxG (some ("a")) [fxB] [fxE] fxG1 (by decide) (by decide) (by decide)⟩

/-- C3 counterexample: a fragment containing the same node twice is merged
with both copies kept — deduplication only runs against the pre-existing
graph — so a duplicate-free graph acquires a duplicated node id. -/
theorem C3_counterexample :
    dupFree fxG = true ∧
    (handleExpandCalls fxG (some ("a")) [fxB, fxB] []).map
      (fun g => g.nodes.map (fun n => n.id)) = some [some ("a"), some ("b"), some ("b")] ∧
    (handleExpandCalls fxG (some ("a")) [fxB, fxB] []).map dupFree = some false := by
  exact ⟨by decide, by decide, by decide⟩

/-- C3 amended: the merge deduplicates only against the current graph, so the
graph stays duplicate-free provided additionally the fragment's own node ids
are pairwise distinct and its own edge (source, target) pairs are pairwise
distinct. -/
theorem C3_no_duplicates_amended (g : Graph) (s : Option String) (N : List Node)
    (E : List Edge) (g' : Graph)
    (hN : (N.map (fun n => n.id)).Nodup)
    (hEp : (E.map (fun e => (e.source, e.target))).Nodup)
    (hg : dupFree g = true)
    (h : handleExpandCalls g s N E = some g') :
    dupFree g' = true := by
  obtain ⟨hids, hedges⟩ := handleExpandCalls_spec h
  simp only [dupFree, Bool.and_eq_true, decide_eq_true_eq] at hg ⊢
  obtain ⟨hgn, hge⟩ := hg
  constructor
  · rw [hids, List.nodup_append]
    refine ⟨hgn, hN.sublist (List.Sublist.map _ (List.filter_sublist N)), ?_⟩
    intro a ha hb
    obtain ⟨n, hn, rfl⟩ := List.mem_map.mp hb
    exact (mem_uniqueNewNodes.mp hn).2 ha
  · rw [hedges]
    unfold mergeCallsEdges
    rw [List.map_append, List.nodup_append]
    refine ⟨hge, hEp.sublist (List.Sublist.map _ (List.filter_sublist E)), ?_⟩
    intro p hp hq
    obtain ⟨e, he, rfl⟩ := List.mem_map.mp hq
    obtain ⟨ce, hce, hpair⟩ := List.mem_map.mp hp
    have hkeys : edgeKey e ∈ g.edges.map edgeKey := by
      have h1 : ce.source = e.source := congrArg Prod.fst hpair
      have h2 : ce.target = e.target := congrArg Prod.snd hpair
      have : edgeKey ce = edgeKey e := by rw [edgeKey, edgeKey, h1, h2]
      exact this ▸ List.mem_map_of_mem _ hce
    have := (List.mem_filter.mp he).2
    simp only [decide_eq_true_eq] at this
    exact this hkeys

/-- C3 witness: the concrete merge of C1, whose fragment has distinct node
ids and distinct edge pairs, keeps the graph duplicate-free. -/
theorem C3_witness :
    ([fxB].map (fun n => n.id)).Nodup ∧
    ([fxE].map (fun e => (e.source, e.target))).Nodup ∧
    dupFree fxG = true ∧
    handleExpandCalls fxG (some ("a")) [fxB] [fxE] = some fxG1 ∧
    dupFree fxG1 = true := by
  exact ⟨by decide, by decide, by decide, by decide,
    C3_no_duplicates_amended fxG (some ("a")) [fxB] [fxE] fxG1 (by decide) (by decide)
      (by decide) (by decide)⟩

/-- C4 counterexample: with one occupied interval [0, 4999], all 50 attempts
of the scan (y = 0, 100, ..., 4900) collide, yet the returned placement y is
5000 — one full step beyond the last attempted y 4900 — and that placement
does not overlap the occupied interval, contradicting placement at the last
attempted y even though it overlaps. -/
theorem C4_counterexample :
    (∀ k : Nat, k < 50 →
      hasCollision [((0 : Int), (4999 : Int))] ((0 : Int) + (k : Int) * (80 + 20))
        ((0 : Int) + (k : Int) * (80 + 20) + (1 : Int) * (80 + 20)) = true) ∧
    findFreeY [((0 : Int), (4999 : Int))] 0 1 = 5000 ∧
    ¬ ((5000 : Int) = 0 + (49 : Int) * (80 + 20)) ∧
    hasCollision [((0 : Int), (4999 : Int))] 5000 (5000 + (1 : Int) * (80 + 20)) = false := by
  exact ⟨by decide, by decide, by decide, by decide⟩

/-- C4 amended: when some attempt among the 50 is collision-free, the greedy
scan places the block at a collision-free y, and every newly placed node's
vertical interval (its y to its y plus the symbol node height 80) is strictly
disjoint from every occupied interval; when all 50 attempts collide, the
nodes are placed at the start y advanced by 50 whole steps — one step beyond
the last attempted y — which may, but need not, overlap. -/
theorem C4_scan_amended :
    (∀ (ranges : List (Int × Int)) (startY : Int) (count : Nat),
      (∃ k : Nat, k < 50 ∧
        hasCollision ranges (startY + (k : Int) * (80 + 20))
          (startY + (k : Int) * (80 + 20) + (count : Int) * (80 + 20)) = false) →
      ∀ i : Nat, i < count → ∀ r ∈ ranges,
        findFreeY ranges startY count + (i : Int) * (80 + 20) + 80 < r.1 ∨
        findFreeY ranges startY count + (i : Int) * (80 + 20) > r.2) ∧
    (∀ (ranges : List (Int × Int)) (startY : Int) (count : Nat),
      (∀ k : Nat, k < 50 →
        hasCollision ranges (startY + (k : Int) * (80 + 20))
          (startY + (k : Int) * (80 + 20) + (count : Int) * (80 + 20)) = true) →
      findFreeY ranges startY count = startY + 50 * (80 + 20)) := by
  constructor
  · intro ranges startY count hex i hi r hr
    have hfree :
        hasCollision ranges (findFreeY ranges startY count)
          (findFreeY ranges startY count + (count : Int) * (80 + 20)) = false :=
      findFreeYAux_success ranges ((count : Int) * (80 + 20)) 50 startY hex
    simp only [hasCollision, List.any_eq_false, decide_eq_true_eq, not_not] at hfree
    have hcount : (i : Int) + 1 ≤ (count : Int) := by exact_mod_cast hi
    have hnn : (0 : Int) ≤ (i : Int) := Int.natCast_nonneg i
    rcases hfree r hr with hlt | hgt
    · exact Or.inl (by linarith)
    · exact Or.inr (by linarith)
  · intro ranges startY count hall
    have h := findFreeYAux_exhaust ranges ((count : Int) * (80 + 20)) 50 startY hall
    rw [findFreeY, h]
    norm_num

/-- C4 witness: a concrete scan with one occupied interval [200, 300] that
succeeds at the first attempt, the placed node's interval [0, 80] lying
strictly below the occupied interval. -/
theorem C4_witness :
    (∃ k : Nat, k < 50 ∧
      hasCollision [((200 : Int), (300 : Int))] ((0 : Int) + (k : Int) * (80 + 20))
        ((0 : Int) + (k : Int) * (80 + 20) + (1 : Int) * (80 + 20)) = false) ∧
    (0 : Nat) < 1 ∧
    ((200 : Int), (300 : Int)) ∈ [((200 : Int), (300 : Int))] ∧
    (findFreeY [((200 : Int), (300 : Int))] 0 1 + ((0 : Nat) : Int) * (80 + 20) + 80 < 200 ∨
     findFreeY [((200 : Int), (300 : Int))] 0 1 + ((0 : Nat) : Int) * (80 + 20) > 300) := by
  refine ⟨⟨0, by decide, by decide⟩, by decide, by decide, ?_⟩
  exact C4_scan_amended.1 [((200 : Int), (300 : Int))] 0 1 ⟨0, by decide, by decide⟩
    0 (by decide) ((200 : Int), (300 : Int)) (by decide)

/-- C5: merging the file expansion of source fileA (a file node with two
symbols at the origin) with the single new file node fileB yields a graph of
two nodes and one edge in which the x position of fileB equals the x of fileA
plus the estimated width of fileA plus the fixed horizontal gap 60. -/
theorem C5_horizontal_placement :
    (handleExpandFile fxGFile (some ("fileA")) [fxFileB]).map
      (fun g => (g.nodes.length, g.edges.length, g.nodes.map (fun n => (n.id, n.position.x)))) =
    some (2, 1, [(some ("fileA"), 0), (some ("fileB"), 0 + estimateNodeWidth fxFileA + 60)]) := by
  decide

/-- C6 counterexample: the size estimate of a file node named models.py with
no symbols is (580, 66), not the width 680 the claim computes — the filename
has 9 characters and max(280, 9 times 8 plus 120) + 300 is 580. -/
theorem C6_counterexample :
    estimateNodeSize fxModels = (580, 66) ∧ ¬ ((580 : Int) = 680) := by
  exact ⟨by decide, by decide⟩

/-- C6 amended: the size estimate of a file node named models.py (9
characters) with no symbols follows the formulas of the spec with the
arithmetic done right: width max(280, 8 times the 9-character filename plus
120) plus 300, which is 580, and height 50 plus 0 plus 16, which is 66. -/
theorem C6_estimate_amended :
    (("models.py").length : Int) = 9 ∧
    estimateNodeSize fxModels =
      (max 280 ((("models.py").length : Int) * 8 + 120) + 300, 50 + min 0 300 + 16) ∧
    max 280 ((("models.py").length : Int) * 8 + 120) + 300 = 580 ∧
    (50 : Int) + min 0 300 + 16 = 66 := by
  exact ⟨by decide, by decide, by decide, by decide⟩

/-- C7: a pending request created with timeout t and never resolved is, when
its timer fires, rejected with a Timeout error naming t and removed from the
pending map; a subsequent resolve call with that id (now absent from the
pending set) is a silent no-op that leaves the whole state unchanged. -/
theorem C7_pending_lifecycle {α : Type} (st : CorrState α) (rid : String)
    (tms : Int) (v : α) :
    mapGet (fireTimeout (createPendingRequest st rid tms) rid).pending rid = none ∧
    (rid, PromiseOutcome.rejected ("Timeout after " ++ toString tms ++ "ms")) ∈
      (fireTimeout (createPendingRequest st rid tms) rid).outcomes ∧
    resolvePendingRequest (fireTimeout (createPendingRequest st rid tms) rid) rid v =
      fireTimeout (createPendingRequest st rid tms) rid := by
  have hget : mapGet (createPendingRequest st rid tms).pending rid = some tms :=
    mapGet_mapSet_self st.pending rid tms
  have hst2 : fireTimeout (createPendingRequest st rid tms) rid =
      { pending := mapDelete (createPendingRequest st rid tms).pending rid,
        outcomes := (createPendingRequest st rid tms).outcomes ++
          [(rid, PromiseOutcome.rejected ("Timeout after " ++ toString tms ++ "ms"))] } := by
    unfold fireTimeout
    rw [hget]
  have hnone : mapGet (fireTimeout (createPendingRequest st rid tms) rid).pending rid = none := by
    rw [hst2]
    exact mapGet_mapDelete_self _ _
  refine ⟨hnone, ?_, ?_⟩
  · rw [hst2]
    exact List.mem_append_right _ (List.mem_singleton.mpr rfl)
  · unfold resolvePendingRequest
    rw [hnone]

/-- C8: when the analysis provider is unreachable (the send fails) or the
correlated pending request fails (timeout), both the expand endpoint and the
references endpoint answer an ok-status response with empty lists, and the
handlers are total so no exception reaches the caller. -/
theorem C8_failure_empty (msg : String) (awaited : Except String (List Node × List Edge))
    (awaited2 : Except String (Option (List String))) :
    expandEndpoint (Except.error msg) awaited = { status := "ok", nodes := [], edges := [] } ∧
    expandEndpoint (Except.ok ()) (Except.error msg) =
      { status := "ok", nodes := [], edges := [] } ∧
    referencesEndpoint (Except.error msg) awaited2 = { status := "ok", files := [] } ∧
    referencesEndpoint (Except.ok ()) (Except.error msg) = { status := "ok", files := [] } := by
  exact ⟨rfl, rfl, rfl, rfl⟩

/-- C9 counterexample: a fragment node with no id is not dropped during the
merge: merging the fragment [node without id, node b] into fxG stores all
three nodes, the malformed id-less entry included. -/
theorem C9_counterexample :
    (handleExpandCalls fxG (some ("a")) [fxNoId, fxB] []).map
      (fun g => g.nodes.map (fun n => n.id)) = some [some ("a"), none, some ("b")] := by
  decide

/-- C9 amended: the merge performs no field validation: a fragment node is
kept or dropped solely by whether its id is already among the graph's node
ids (an id-less node merges whenever no current node lacks an id), and a
fragment edge solely by whether its (source, target) key is already present. -/
theorem C9_dedup_only_merge (g : Graph) (s : Option String) (N : List Node)
    (E : List Edge) (g' : Graph) (h : handleExpandCalls g s N E = some g') :
    g'.nodes.map (fun n => n.id) =
      g.nodes.map (fun n => n.id) ++ (uniqueNewNodes g N).map (fun n => n.id) ∧
    g'.edges = g.edges ++ E.filter (fun e => decide (edgeKey e ∉ g.edges.map edgeKey)) :=
  handleExpandCalls_spec h

/-- C9 witness: the concrete merge of C1 instantiating the survival
characterization. -/
theorem C9_witness :
    handleExpandCalls fxG (some ("a")) [fxB] [fxE] = some fxG1 ∧
    fxG1.nodes.map (fun n => n.id) =
      fxG.nodes.map (fun n => n.id) ++ (uniqueNewNodes fxG [fxB]).map (fun n => n.id) ∧
    fxG1.edges = fxG.edges ++ [fxE].filter (fun e => decide (edgeKey e ∉ fxG.edges.map edgeKey)) := by
  have h : handleExpandCalls fxG (some ("a")) [fxB] [fxE] = some fxG1 := by decide
  exact ⟨h, C9_dedup_only_merge fxG (some ("a")) [fxB] [fxE] fxG1 h⟩

/-- C10: under the hypothesis that the source id names a node of the graph,
the expand-calls merge always completes (no undefined dereference); the
hypothesis is necessary: on the concrete graph fxG with an absent source id
and a surviving fragment node, the merge estimates the width of an undefined
node and throws, modelled as none. -/
theorem C10_source_precondition :
    (∀ (g : Graph) (s : Option String) (N : List Node) (E : List Edge),
      (∃ n ∈ g.nodes, n.id = s) → (handleExpandCalls g s N E).isSome = true) ∧
    handleExpandCalls fxG (some ("zzz")) [fxB] [] = none := by
  constructor
  · intro g s N E hex
    unfold handleExpandCalls
    split
    · rfl
    · cases hsrc : sourceNode g s with
      | none =>
        exfalso
        obtain ⟨n, hn, hid⟩ := hex
        rw [sourceNode] at hsrc
        have := List.find?_eq_none.mp hsrc n hn
        simp only [decide_eq_true_eq] at this
        exact this hid
      | some src => rfl
  · decide

/-- C10 witness: the concrete graph fxG contains the source node a, and the
merge of a fragment into it completes. -/
theorem C10_witness :
    (∃ n ∈ fxG.nodes, n.id = some ("a")) ∧
    (handleExpandCalls fxG (some ("a")) [fxB] [fxE]).isSome = true := by
  exact ⟨by decide, C10_source_precondition.1 fxG (some ("a")) [fxB] [fxE] (by decide)⟩

end Terreno
